import Mathlib

/-!
Verification model of the galpy adaptive-step symplectic leapfrog
integrators (galpy/util/bovy_symplecticode.py) and of the inverse vertical
action-angle machinery (galpy/actionAngle_src/actionAngleVerticalInverse.py).

Real-valued numpy arithmetic is modelled over the rationals.  The constant
npPi below is the exact rational value of the IEEE-754 double numpy.pi used
by the code, so the angle-wrapping arithmetic of the source is reproduced
exactly.  Transcendental building blocks (the potential, arctan2, sqrt and
the per-torus auxiliary-angle function they compose to) enter the model as
explicit function parameters; everything built on top of them is translated
directly from the source.
-/

/-- Exact rational value of the IEEE-754 double numpy.pi. -/
def npPi : ℚ := 884279719003555 / 281474976710656

/-- Convergence tolerance 1e-12 of the Newton iterations (tol= 1.e-12 in
_create_xgrid and _xvFreqs). -/
def tolGrid : ℚ := 1 / 10 ^ 12

/-- Action-lookup tolerance 1e-10 of _xvFreqs and _Freqs. -/
def lookupTol : ℚ := 1 / 10 ^ 10

/-- Wrap an angle into the interval (-pi, pi], mirroring the numpy idiom
(a + numpy.pi) % (2 * numpy.pi) - numpy.pi of the source; Python's % is the
floor-based modulus. -/
def qwrap (a : ℚ) : ℚ :=
  (a + npPi) - 2 * npPi * (Rat.floor ((a + npPi) / (2 * npPi)) : ℚ) - npPi

theorem qwrap_eq_floor (a : ℚ) :
    qwrap a = (a + npPi) - 2 * npPi * (⌊(a + npPi) / (2 * npPi)⌋ : ℚ) - npPi := by
  rw [qwrap, Rat.floor_def', ← Rat.floor_def]

/-- numpy.sign on a scalar. -/
def qsign (a : ℚ) : ℚ := if a < 0 then -1 else if a = 0 then 0 else 1

/-- Python's int() applied to a real scalar: truncation toward zero. -/
def pyint (q : ℚ) : ℤ := if 0 ≤ q then ⌊q⌋ else ⌈q⌉

/-- numpy.argmin on a one-dimensional array: index of the first minimal
element (0 on the empty list, on which numpy raises instead). -/
def np_argmin : List ℚ → ℕ
  | [] => 0
  | [_] => 0
  | x :: y :: xs =>
    if x ≤ (y :: xs).getD (np_argmin (y :: xs)) 0 then 0
    else np_argmin (y :: xs) + 1

theorem np_argmin_spec (l : List ℚ) :
    (l ≠ [] → np_argmin l < l.length) ∧
    ∀ m, m < l.length → l.getD (np_argmin l) 0 ≤ l.getD m 0 := by
  induction l with
  | nil => exact ⟨fun h => absurd rfl h, fun m hm => absurd hm (by simp)⟩
  | cons x t ih =>
    cases t with
    | nil =>
      refine ⟨fun _ => ?_, fun m hm => ?_⟩
      · show np_argmin [x] < 1
        simp [np_argmin]
      · have hm0 : m = 0 := Nat.lt_one_iff.mp (by simpa using hm)
        subst hm0
        simp [np_argmin]
    | cons y xs =>
      obtain ⟨ihlt, ihmin⟩ := ih
      have hlt := ihlt (by simp)
      constructor
      · intro _
        show (if x ≤ (y :: xs).getD (np_argmin (y :: xs)) 0 then 0
              else np_argmin (y :: xs) + 1) < (x :: y :: xs).length
        by_cases hx : x ≤ (y :: xs).getD (np_argmin (y :: xs)) 0
        · rw [if_pos hx]; simp
        · rw [if_neg hx]
          simp only [List.length_cons] at hlt ⊢
          omega
      · intro m hm
        show (x :: y :: xs).getD
            (if x ≤ (y :: xs).getD (np_argmin (y :: xs)) 0 then 0
             else np_argmin (y :: xs) + 1) 0 ≤ (x :: y :: xs).getD m 0
        by_cases hx : x ≤ (y :: xs).getD (np_argmin (y :: xs)) 0
        · rw [if_pos hx, List.getD_cons_zero]
          match m with
          | 0 => simp
          | m + 1 =>
            have hm' : m < (y :: xs).length := by
              simpa using Nat.lt_of_succ_lt_succ hm
            calc x ≤ (y :: xs).getD (np_argmin (y :: xs)) 0 := hx
              _ ≤ (y :: xs).getD m 0 := ihmin m hm'
              _ = (x :: y :: xs).getD (m + 1) 0 := by simp
        · rw [if_neg hx, List.getD_cons_succ]
          match m with
          | 0 =>
            exact le_of_lt (by simpa using lt_of_not_le hx)
          | m + 1 =>
            have hm' : m < (y :: xs).length := by
              simpa using Nat.lt_of_succ_lt_succ hm
            simpa using ihmin m hm'

/-! ## Adaptive step-size estimation (bovy_symplecticode.py)

The halving loop shared by _leapfrog_estimate_step (lines 87-113) and
_leapfrog_cyl_estimate_step (lines 170-213) is

    err= 2.
    dt*= 2.
    while err > 1. and init_dt/dt < _MAX_DT_REDUCE:
        <one full leapfrog step and two half-steps with the current dt>
        err= <normalized RMS discrepancy of the two results>
        dt/= 2.
    return dt

For fixed force/drift/kick functions, state, time, arguments and tolerances,
the discrepancy err is a function of the trial step dt alone; only the truth
value of err > 1 enters the control flow (IEEE inf and nan, which arise when
rtol = atol = 0, both compare as not-at-most-1, so a Bool-valued abstraction
covers them).  The loop is therefore modelled with a parameter
big : dt -> Bool standing for the predicate err(dt) > 1; the Bool state
carried by the loop is the current truth value of err > 1, initialized to
true because err is initialized to 2.  The while loop of the source has no
fuel; the fuel parameter below is shown (theorem C2) to be irrelevant once
it reaches 15, which is the termination claim. -/

def _MAX_DT_REDUCE : ℚ := 10000

def estimate_step_loop (big : ℚ → Bool) (init_dt : ℚ) :
    ℕ → Bool → ℚ → ℚ
  | 0, _, dt => dt
  | fuel + 1, errBig, dt =>
    if errBig = true ∧ init_dt / dt < _MAX_DT_REDUCE then
      estimate_step_loop big init_dt fuel (big dt) (dt / 2)
    else dt

/-- Model of _leapfrog_estimate_step: err = 2 initially and the trial step
starts at twice init_dt (dt *= 2 before the loop). -/
def _leapfrog_estimate_step (big : ℚ → Bool) (init_dt : ℚ) (fuel : ℕ) : ℚ :=
  estimate_step_loop big init_dt fuel true (2 * init_dt)

/-- Model of _leapfrog_cyl_estimate_step: the scale setup (lines 171-192)
differs from the Cartesian variant but only feeds the err predicate, which
is abstracted into big; the control flow (lines 193-213) is identical. -/
def _leapfrog_cyl_estimate_step (big : ℚ → Bool) (init_dt : ℚ) (fuel : ℕ) : ℚ :=
  estimate_step_loop big init_dt fuel true (2 * init_dt)

theorem estimate_step_loop_pow (big : ℚ → Bool) (init_dt : ℚ) :
    ∀ (fuel : ℕ) (b : Bool) (dt : ℚ),
      ∃ k ≤ fuel, estimate_step_loop big init_dt fuel b dt = dt / 2 ^ k := by
  intro fuel
  induction fuel with
  | zero => exact fun b dt => ⟨0, le_refl 0, by simp [estimate_step_loop]⟩
  | succ n ih =>
    intro b dt
    rw [estimate_step_loop]
    by_cases h : b = true ∧ init_dt / dt < _MAX_DT_REDUCE
    · rw [if_pos h]
      obtain ⟨k, hk, hval⟩ := ih (big dt) (dt / 2)
      refine ⟨k + 1, by omega, ?_⟩
      rw [hval, div_div, ← pow_succ']
    · rw [if_neg h]
      exact ⟨0, by omega, by simp⟩

theorem estimate_step_loop_stable (big : ℚ → Bool) (init_dt : ℚ) :
    ∀ (m extra : ℕ) (b : Bool) (dt : ℚ),
      _MAX_DT_REDUCE ≤ 2 ^ m * (init_dt / dt) →
      estimate_step_loop big init_dt (m + extra) b dt =
        estimate_step_loop big init_dt m b dt := by
  intro m
  induction m with
  | zero =>
    intro extra b dt hcap
    cases extra with
    | zero => rfl
    | succ e =>
      rw [Nat.zero_add,
        show estimate_step_loop big init_dt 0 b dt = dt from rfl,
        estimate_step_loop, if_neg]
      rintro ⟨-, hratio⟩
      rw [pow_zero, one_mul] at hcap
      exact absurd hratio (not_lt.mpr hcap)
  | succ n ih =>
    intro extra b dt hcap
    by_cases h : b = true ∧ init_dt / dt < _MAX_DT_REDUCE
    · have hleft : estimate_step_loop big init_dt (n + 1 + extra) b dt =
          estimate_step_loop big init_dt (n + extra) (big dt) (dt / 2) := by
        have : n + 1 + extra = (n + extra) + 1 := by omega
        rw [this, estimate_step_loop, if_pos h]
      have hright : estimate_step_loop big init_dt (n + 1) b dt =
          estimate_step_loop big init_dt n (big dt) (dt / 2) := by
        rw [estimate_step_loop, if_pos h]
      rw [hleft, hright]
      apply ih
      have hdd : init_dt / (dt / 2) = init_dt * 2 / dt := div_div_eq_mul_div _ _ _
      calc _MAX_DT_REDUCE ≤ 2 ^ (n + 1) * (init_dt / dt) := hcap
        _ = 2 ^ n * (init_dt * 2 / dt) := by ring
        _ = 2 ^ n * (init_dt / (dt / 2)) := by rw [hdd]
    · have hleft : estimate_step_loop big init_dt (n + 1 + extra) b dt = dt := by
        have : n + 1 + extra = (n + extra) + 1 := by omega
        rw [this, estimate_step_loop, if_neg h]
      have hright : estimate_step_loop big init_dt (n + 1) b dt = dt := by
        rw [estimate_step_loop, if_neg h]
      rw [hleft, hright]

theorem estimate_step_loop_all_big (big : ℚ → Bool) (init_dt : ℚ)
    (hb : ∀ q, big q = true) (h0 : init_dt ≠ 0) :
    ∀ (fuel k : ℕ), k ≤ 15 →
      estimate_step_loop big init_dt fuel true (2 * init_dt / 2 ^ k) =
        2 * init_dt / 2 ^ min (k + fuel) 15 := by
  intro fuel
  induction fuel with
  | zero => intro k hk; simp [estimate_step_loop, Nat.min_eq_left hk]
  | succ n ih =>
    intro k hk
    have hratio : init_dt / (2 * init_dt / 2 ^ k) = 2 ^ k / 2 := by
      rw [div_div_eq_mul_div, mul_comm 2 init_dt, mul_div_mul_left _ _ h0]
    rcases Nat.lt_or_ge k 15 with hk15 | hk15
    · have hcond : init_dt / (2 * init_dt / 2 ^ k) < _MAX_DT_REDUCE := by
        rw [hratio]
        have : (2 : ℚ) ^ k ≤ 2 ^ 14 := by
          apply pow_le_pow_right₀ (by norm_num)
          omega
        have h14 : (2 : ℚ) ^ 14 = 16384 := by norm_num
        rw [_MAX_DT_REDUCE]
        nlinarith
      rw [estimate_step_loop, if_pos ⟨rfl, hcond⟩, hb]
      have hstep : 2 * init_dt / 2 ^ k / 2 = 2 * init_dt / 2 ^ (k + 1) := by
        rw [div_div, ← pow_succ]
      rw [hstep, ih (k + 1) (by omega)]
      have hmin : (k + 1 + n) ⊓ 15 = (k + (n + 1)) ⊓ 15 := by omega
      rw [hmin]
    · have hk' : k = 15 := le_antisymm hk hk15
      subst hk'
      rw [estimate_step_loop, if_neg, Nat.min_eq_right (by omega)]
      rintro ⟨-, hratio'⟩
      rw [hratio] at hratio'
      have : (2 : ℚ) ^ 15 / 2 = 16384 := by norm_num
      rw [this, _MAX_DT_REDUCE] at hratio'
      exact absurd hratio' (by norm_num)

/-! ## Leapfrog integrators (bovy_symplecticode.py)

States are lists of rationals; numpy elementwise array arithmetic on
same-shape arrays is zipWith / map.  The force, drift and kick functions are
parameters (they come from the external potential framework), as is the
Bool-valued discrepancy predicate big feeding the step estimator. -/

def vadd (a b : List ℚ) : List ℚ := List.zipWith (· + ·) a b

def vsmul (c : ℚ) (a : List ℚ) : List ℚ := a.map (fun x => c * x)

/-- Source line 81-82: leapfrog_leapq(q,p,dt) = q+dt*p. -/
def leapfrog_leapq (q p : List ℚ) (dt : ℚ) : List ℚ := vadd q (vsmul dt p)

/-- Source line 84-85: leapfrog_leapp(p,dt,force) = p+dt*force. -/
def leapfrog_leapp (p : List ℚ) (dt : ℚ) (force : List ℚ) : List ℚ :=
  vadd p (vsmul dt force)

/-- One drift-kick-drift sub-step of _leapfrog (lines 67-76), acting on
(qo, po, to). -/
def leapfrog_substep (func : List ℚ → ℚ → List ℚ) (dt : ℚ)
    (s : List ℚ × List ℚ × ℚ) : List ℚ × List ℚ × ℚ :=
  let q12 := leapfrog_leapq s.1 s.2.1 (dt / 2)
  let force := func q12 (s.2.2 + dt / 2)
  let po := leapfrog_leapp s.2.1 dt force
  let qo := leapfrog_leapq q12 po (dt / 2)
  (qo, po, s.2.2 + dt)

/-- Rows 1..len(t)-1 of the output of _leapfrog: each row applies ndt
sub-steps to the running state and records qo ++ po (lines 65-78). -/
def leapfrog_rows (func : List ℚ → ℚ → List ℚ) (dt : ℚ) (ndt : ℕ) :
    ℕ → List ℚ × List ℚ × ℚ → List (List ℚ)
  | 0, _ => []
  | n + 1, s =>
    let s' := (leapfrog_substep func dt)^[ndt] s
    (s'.1 ++ s'.2.1) :: leapfrog_rows func dt ndt n s'

/-- Sub-step selected by _leapfrog (line 59-62): the requested sample
spacing t[1]-t[0], refined by the adaptive estimator. -/
def leapfrog_dt (big : ℚ → Bool) (t : List ℚ) (fuel : ℕ) : ℚ :=
  _leapfrog_estimate_step big (t.getD 1 0 - t.getD 0 0) fuel

/-- Sub-step count ndt = int(init_dt/dt) of _leapfrog (line 62). -/
def leapfrog_ndt (big : ℚ → Bool) (t : List ℚ) (fuel : ℕ) : ℕ :=
  (pyint ((t.getD 1 0 - t.getD 0 0) / leapfrog_dt big t fuel)).toNat

/-- Model of _leapfrog (lines 35-79): yo = [q, p] split in half, one output
row per requested time, first row the initial condition. -/
def _leapfrog (func : List ℚ → ℚ → List ℚ) (big : ℚ → Bool)
    (yo t : List ℚ) (fuel : ℕ) : List (List ℚ) :=
  let qo := yo.take (yo.length / 2)
  let po := yo.drop (yo.length / 2)
  let dt := leapfrog_dt big t fuel
  let ndt := leapfrog_ndt big t fuel
  yo :: leapfrog_rows func dt ndt (t.length - 1) (qo, po, t.getD 0 0)

/-- One kick-then-drift inner sub-step of leapfrog_cyl (lines 155-161),
acting on (y12, to). -/
def leapfrog_cyl_substep (drift : List ℚ → List ℚ)
    (kick : List ℚ → ℚ → List ℚ) (dt : ℚ) (s : List ℚ × ℚ) : List ℚ × ℚ :=
  let y1 := vadd s.1 (vsmul dt (kick s.1 (s.2 + dt / 2)))
  let y2 := vadd y1 (vsmul dt (drift y1))
  (y2, s.2 + dt)

/-- Rows 1..len(t)-1 of leapfrog_cyl (lines 152-164): drift a half step,
run ndt kick+drift sub-steps, drift back half a step, record the state. -/
def leapfrog_cyl_rows (drift : List ℚ → List ℚ)
    (kick : List ℚ → ℚ → List ℚ) (dt dt2 : ℚ) (ndt : ℕ) :
    ℕ → List ℚ × ℚ → List (List ℚ)
  | 0, _ => []
  | n + 1, s =>
    let y12 := vadd s.1 (vsmul dt2 (drift s.1))
    let s' := (leapfrog_cyl_substep drift kick dt)^[ndt] (y12, s.2)
    let y' := vadd s'.1 (vsmul (-dt2) (drift s'.1))
    y' :: leapfrog_cyl_rows drift kick dt dt2 ndt n (y', s'.2)

/-- Sub-step selected by leapfrog_cyl (lines 144-148). -/
def leapfrog_cyl_dt (big : ℚ → Bool) (t : List ℚ) (fuel : ℕ) : ℚ :=
  _leapfrog_cyl_estimate_step big (t.getD 1 0 - t.getD 0 0) fuel

/-- Sub-step count ndt = int(init_dt/dt) of leapfrog_cyl (line 149). -/
def leapfrog_cyl_ndt (big : ℚ → Bool) (t : List ℚ) (fuel : ℕ) : ℕ :=
  (pyint ((t.getD 1 0 - t.getD 0 0) / leapfrog_cyl_dt big t fuel)).toNat

/-- Model of leapfrog_cyl (lines 115-168).  When not meridional and
len(yo) != 2, the transverse velocity at index 2 is replaced by the angular
momentum vT*R on input (line 140) and the substitution is reversed on every
output row (line 167). -/
def leapfrog_cyl (drift : List ℚ → List ℚ) (kick : List ℚ → ℚ → List ℚ)
    (big : ℚ → Bool) (yo t : List ℚ) (fuel : ℕ) (meridional : Bool) :
    List (List ℚ) :=
  let subst := meridional = false ∧ yo.length ≠ 2
  let y := if subst then yo.set 2 (yo.getD 2 0 * yo.getD 0 0) else yo
  let dt := leapfrog_cyl_dt big t fuel
  let ndt := leapfrog_cyl_ndt big t fuel
  let out := y :: leapfrog_cyl_rows drift kick dt (dt / 2) ndt
    (t.length - 1) (y, t.getD 0 0)
  if subst then
    out.map (fun row => row.set 2 (row.getD 2 0 / row.getD 0 0))
  else out

theorem getD_set_ne (l : List ℚ) (v : ℚ) (i j : ℕ) (h : i ≠ j) :
    (l.set i v).getD j 0 = l.getD j 0 := by
  simp [List.getD_eq_getElem?_getD, List.getElem?_set_ne h]

theorem getD_set_self (l : List ℚ) (v : ℚ) (i : ℕ) (h : i < l.length) :
    (l.set i v).getD i 0 = v := by
  simp [List.getD_eq_getElem?_getD, List.getElem?_set_self, h]

theorem set_getD_self (l : List ℚ) (i : ℕ) (h : i < l.length) :
    l.set i (l.getD i 0) = l := by
  apply List.ext_getElem?
  intro j
  rcases eq_or_ne i j with rfl | hne
  · simp [List.getElem?_set_self, h, List.getD_eq_getElem?_getD,
      List.getElem?_eq_getElem h]
  · simp [List.getElem?_set_ne hne]

theorem vadd_length (a b : List ℚ) :
    (vadd a b).length = min a.length b.length := by
  simp [vadd]

theorem vsmul_length (c : ℚ) (a : List ℚ) : (vsmul c a).length = a.length := by
  simp [vsmul]

theorem leapfrog_substep_length (func : List ℚ → ℚ → List ℚ)
    (hfunc : ∀ q s, (func q s).length = q.length) (dt : ℚ) (n : ℕ)
    (s : List ℚ × List ℚ × ℚ) (hq : s.1.length = n) (hp : s.2.1.length = n) :
    (leapfrog_substep func dt s).1.length = n ∧
      (leapfrog_substep func dt s).2.1.length = n := by
  constructor <;>
    simp [leapfrog_substep, leapfrog_leapq, leapfrog_leapp, vadd_length,
      vsmul_length, hfunc, hq, hp]

theorem leapfrog_iterate_length (func : List ℚ → ℚ → List ℚ)
    (hfunc : ∀ q s, (func q s).length = q.length) (dt : ℚ) (n : ℕ) :
    ∀ (m : ℕ) (s : List ℚ × List ℚ × ℚ), s.1.length = n → s.2.1.length = n →
      ((leapfrog_substep func dt)^[m] s).1.length = n ∧
        ((leapfrog_substep func dt)^[m] s).2.1.length = n := by
  intro m
  induction m with
  | zero => intro s hq hp; simpa using ⟨hq, hp⟩
  | succ k ih =>
    intro s hq hp
    rw [Function.iterate_succ_apply]
    obtain ⟨h1, h2⟩ := leapfrog_substep_length func hfunc dt n s hq hp
    exact ih _ h1 h2

theorem leapfrog_rows_spec (func : List ℚ → ℚ → List ℚ)
    (hfunc : ∀ q s, (func q s).length = q.length) (dt : ℚ) (ndt n : ℕ) :
    ∀ (m : ℕ) (s : List ℚ × List ℚ × ℚ), s.1.length = n → s.2.1.length = n →
      (leapfrog_rows func dt ndt m s).length = m ∧
        ∀ r ∈ leapfrog_rows func dt ndt m s, r.length = n + n := by
  intro m
  induction m with
  | zero => intro s _ _; simp [leapfrog_rows]
  | succ k ih =>
    intro s hq hp
    obtain ⟨h1, h2⟩ := leapfrog_iterate_length func hfunc dt n ndt s hq hp
    obtain ⟨ihlen, ihmem⟩ := ih _ h1 h2
    refine ⟨by simp [leapfrog_rows, ihlen], ?_⟩
    intro r hr
    rw [leapfrog_rows] at hr
    rcases List.mem_cons.mp hr with rfl | hr'
    · simp [h1, h2]
    · exact ihmem r hr'

theorem leapfrog_cyl_substep_length (drift : List ℚ → List ℚ)
    (kick : List ℚ → ℚ → List ℚ) (hd : ∀ y, (drift y).length = y.length)
    (hk : ∀ y s, (kick y s).length = y.length) (dt : ℚ) (n : ℕ)
    (s : List ℚ × ℚ) (hy : s.1.length = n) :
    (leapfrog_cyl_substep drift kick dt s).1.length = n := by
  simp [leapfrog_cyl_substep, vadd_length, vsmul_length, hd, hk, hy]

theorem leapfrog_cyl_iterate_length (drift : List ℚ → List ℚ)
    (kick : List ℚ → ℚ → List ℚ) (hd : ∀ y, (drift y).length = y.length)
    (hk : ∀ y s, (kick y s).length = y.length) (dt : ℚ) (n : ℕ) :
    ∀ (m : ℕ) (s : List ℚ × ℚ), s.1.length = n →
      ((leapfrog_cyl_substep drift kick dt)^[m] s).1.length = n := by
  intro m
  induction m with
  | zero => intro s hy; simpa using hy
  | succ k ih =>
    intro s hy
    rw [Function.iterate_succ_apply]
    exact ih _ (leapfrog_cyl_substep_length drift kick hd hk dt n s hy)

theorem leapfrog_cyl_rows_spec (drift : List ℚ → List ℚ)
    (kick : List ℚ → ℚ → List ℚ) (hd : ∀ y, (drift y).length = y.length)
    (hk : ∀ y s, (kick y s).length = y.length) (dt dt2 : ℚ) (ndt n : ℕ) :
    ∀ (m : ℕ) (s : List ℚ × ℚ), s.1.length = n →
      (leapfrog_cyl_rows drift kick dt dt2 ndt m s).length = m ∧
        ∀ r ∈ leapfrog_cyl_rows drift kick dt dt2 ndt m s, r.length = n := by
  intro m
  induction m with
  | zero => intro s _; simp [leapfrog_cyl_rows]
  | succ k ih =>
    intro s hy
    have h12 : (vadd s.1 (vsmul dt2 (drift s.1))).length = n := by
      simp [vadd_length, vsmul_length, hd, hy]
    have hit := leapfrog_cyl_iterate_length drift kick hd hk dt n ndt
      (vadd s.1 (vsmul dt2 (drift s.1)), s.2) h12
    have hy' : (vadd ((leapfrog_cyl_substep drift kick dt)^[ndt]
        (vadd s.1 (vsmul dt2 (drift s.1)), s.2)).1
        (vsmul (-dt2) (drift ((leapfrog_cyl_substep drift kick dt)^[ndt]
          (vadd s.1 (vsmul dt2 (drift s.1)), s.2)).1))).length = n := by
      simp [vadd_length, vsmul_length, hd, hit]
    obtain ⟨ihlen, ihmem⟩ := ih
      (vadd ((leapfrog_cyl_substep drift kick dt)^[ndt]
          (vadd s.1 (vsmul dt2 (drift s.1)), s.2)).1
        (vsmul (-dt2) (drift ((leapfrog_cyl_substep drift kick dt)^[ndt]
          (vadd s.1 (vsmul dt2 (drift s.1)), s.2)).1)),
       ((leapfrog_cyl_substep drift kick dt)^[ndt]
          (vadd s.1 (vsmul dt2 (drift s.1)), s.2)).2) hy'
    refine ⟨by simp [leapfrog_cyl_rows, ihlen], ?_⟩
    intro r hr
    rw [leapfrog_cyl_rows] at hr
    rcases List.mem_cons.mp hr with rfl | hr'
    · exact hy'
    · exact ihmem r hr'

/-- Claim C2: for every discrepancy predicate big (hence for every
force/drift/kick function, initial state, positive initial trial step, and
every rtol, atol including rtol = atol = 0, for which err is inf and err > 1
is identically true), both adaptive step estimators terminate after finitely
many halvings: any fuel of at least 15 loop iterations yields the same
result, the returned step is the finite positive value 2*init_dt/2^k for
some 1 <= k <= 15, the loop stops at once when the discrepancy is small,
and when the discrepancy never becomes small it stops at the maximum
reduction factor, returning init_dt/16384 with no error raised. -/
theorem C2_estimate_step_terminates (big : ℚ → Bool) (init_dt : ℚ)
    (h0 : 0 < init_dt) :
    (∀ extra, _leapfrog_estimate_step big init_dt (15 + extra) =
      _leapfrog_estimate_step big init_dt 15) ∧
    (∃ k, 1 ≤ k ∧ k ≤ 15 ∧
      _leapfrog_estimate_step big init_dt 15 = 2 * init_dt / 2 ^ k) ∧
    0 < _leapfrog_estimate_step big init_dt 15 ∧
    (big (2 * init_dt) = false →
      _leapfrog_estimate_step big init_dt 15 = init_dt) ∧
    ((∀ q, big q = true) →
      _leapfrog_estimate_step big init_dt 15 = init_dt / 16384) ∧
    (∀ extra, _leapfrog_cyl_estimate_step big init_dt (15 + extra) =
      _leapfrog_cyl_estimate_step big init_dt 15) ∧
    (∃ k, 1 ≤ k ∧ k ≤ 15 ∧
      _leapfrog_cyl_estimate_step big init_dt 15 = 2 * init_dt / 2 ^ k) ∧
    0 < _leapfrog_cyl_estimate_step big init_dt 15 := by
  have hne : init_dt ≠ 0 := ne_of_gt h0
  have ratio0 : init_dt / (2 * init_dt) = 1 / 2 := by
    rw [mul_comm, div_mul_eq_div_div, div_self hne]
  have hstab : ∀ extra,
      estimate_step_loop big init_dt (15 + extra) true (2 * init_dt) =
        estimate_step_loop big init_dt 15 true (2 * init_dt) := by
    intro extra
    apply estimate_step_loop_stable
    rw [ratio0, _MAX_DT_REDUCE]
    norm_num
  have hguard0 : (true = true ∧ init_dt / (2 * init_dt) < _MAX_DT_REDUCE) := by
    refine ⟨rfl, ?_⟩
    rw [ratio0, _MAX_DT_REDUCE]
    norm_num
  have hhalf : 2 * init_dt / 2 = init_dt := by ring
  have hunfold : ∀ fuel,
      estimate_step_loop big init_dt (fuel + 1) true (2 * init_dt) =
        estimate_step_loop big init_dt fuel (big (2 * init_dt)) init_dt := by
    intro fuel
    rw [estimate_step_loop, if_pos hguard0, hhalf]
  have hex : ∃ k, 1 ≤ k ∧ k ≤ 15 ∧
      estimate_step_loop big init_dt 15 true (2 * init_dt) =
        2 * init_dt / 2 ^ k := by
    rw [show (15 : ℕ) = 14 + 1 from rfl, hunfold]
    obtain ⟨k, hk, hval⟩ :=
      estimate_step_loop_pow big init_dt 14 (big (2 * init_dt)) init_dt
    refine ⟨k + 1, by omega, by omega, ?_⟩
    rw [hval, pow_succ]
    ring
  have hpos : 0 < estimate_step_loop big init_dt 15 true (2 * init_dt) := by
    obtain ⟨k, -, -, hval⟩ := hex
    rw [hval]
    positivity
  have hsmall : big (2 * init_dt) = false →
      estimate_step_loop big init_dt 15 true (2 * init_dt) = init_dt := by
    intro hb
    rw [show (15 : ℕ) = 14 + 1 from rfl, hunfold, hb,
      show (14 : ℕ) = 13 + 1 from rfl, estimate_step_loop, if_neg]
    simp
  have hcap : (∀ q, big q = true) →
      estimate_step_loop big init_dt 15 true (2 * init_dt) = init_dt / 16384 := by
    intro hb
    have h := estimate_step_loop_all_big big init_dt hb hne 15 0 (by omega)
    rw [pow_zero, div_one] at h
    norm_num at h
    rw [h]
    ring
  exact ⟨hstab, hex, hpos, hsmall, hcap, hstab, hex, hpos⟩

/-- Witness for C2: the always-big predicate (the rtol = atol = 0 scenario)
with unit initial spacing; the estimators return a positive step. -/
theorem C2_witness :
    (0 : ℚ) < 1 ∧
    0 < _leapfrog_estimate_step (fun _ => true) 1 15 ∧
    0 < _leapfrog_cyl_estimate_step (fun _ => true) 1 15 := by
  have h := C2_estimate_step_terminates (fun _ => true) 1 (by norm_num)
  exact ⟨by norm_num, h.2.2.1, h.2.2.2.2.2.2.2⟩

theorem pyint_pow_two (k : ℕ) : pyint ((2 : ℚ) ^ k) = 2 ^ k := by
  rw [pyint, if_pos (by positivity)]
  rw [show ((2 : ℚ) ^ k) = ((2 ^ k : ℕ) : ℚ) by push_cast; ring]
  rw [Int.floor_natCast]
  push_cast
  ring

theorem estimate_step_result_form (big : ℚ → Bool) (init_dt : ℚ)
    (h0 : 0 < init_dt) (fuel : ℕ) (hf : 1 ≤ fuel) :
    ∃ k, _leapfrog_estimate_step big init_dt fuel = init_dt / 2 ^ k := by
  have hne : init_dt ≠ 0 := ne_of_gt h0
  obtain ⟨m, rfl⟩ : ∃ m, fuel = m + 1 := ⟨fuel - 1, by omega⟩
  have hguard0 : (true = true ∧ init_dt / (2 * init_dt) < _MAX_DT_REDUCE) := by
    refine ⟨rfl, ?_⟩
    rw [mul_comm, div_mul_eq_div_div, div_self hne, _MAX_DT_REDUCE]
    norm_num
  rw [_leapfrog_estimate_step, estimate_step_loop, if_pos hguard0,
    show 2 * init_dt / 2 = init_dt by ring]
  obtain ⟨k, -, hval⟩ :=
    estimate_step_loop_pow big init_dt m (big (2 * init_dt)) init_dt
  exact ⟨k, hval⟩

/-- Claim C10: in both _leapfrog and leapfrog_cyl the step-estimation loop
always executes at least one iteration (err is initialized to 2 and the
initial reduction factor is 1/2), so the selected sub-step dt never exceeds
the requested sample spacing t[1] - t[0], and the sub-step count
ndt = int(init_dt/dt) is at least 1: every requested output interval is
advanced by at least one leapfrog sub-step. -/
theorem C10_at_least_one_substep (big : ℚ → Bool) (t : List ℚ) (fuel : ℕ)
    (hfuel : 1 ≤ fuel) (hspc : 0 < t.getD 1 0 - t.getD 0 0) :
    leapfrog_dt big t fuel ≤ t.getD 1 0 - t.getD 0 0 ∧
    1 ≤ leapfrog_ndt big t fuel ∧
    leapfrog_cyl_dt big t fuel ≤ t.getD 1 0 - t.getD 0 0 ∧
    1 ≤ leapfrog_cyl_ndt big t fuel := by
  have hne : t.getD 1 0 - t.getD 0 0 ≠ 0 := ne_of_gt hspc
  obtain ⟨k, hval⟩ :=
    estimate_step_result_form big (t.getD 1 0 - t.getD 0 0) hspc fuel hfuel
  have hdt : leapfrog_dt big t fuel = (t.getD 1 0 - t.getD 0 0) / 2 ^ k := by
    rw [leapfrog_dt, hval]
  have hle : leapfrog_dt big t fuel ≤ t.getD 1 0 - t.getD 0 0 := by
    rw [hdt]
    exact div_le_self (le_of_lt hspc) (one_le_pow₀ (by norm_num))
  have hratio : (t.getD 1 0 - t.getD 0 0) / leapfrog_dt big t fuel =
      (2 : ℚ) ^ k := by
    rw [hdt, div_div_eq_mul_div, mul_comm, mul_div_assoc, div_self hne,
      mul_one]
  have hndt : leapfrog_ndt big t fuel = 2 ^ k := by
    rw [leapfrog_ndt, hratio, pyint_pow_two,
      show ((2 : ℤ) ^ k) = ((2 ^ k : ℕ) : ℤ) by push_cast; ring]
    exact Int.toNat_natCast _
  have hndt1 : 1 ≤ leapfrog_ndt big t fuel := by
    rw [hndt]
    exact Nat.one_le_two_pow
  exact ⟨hle, hndt1, hle, hndt1⟩

/-- Witness for C10 at the always-big predicate and t = [0, 1]. -/
theorem C10_witness :
    (1 ≤ 15 ∧ (0 : ℚ) < [(0 : ℚ), 1].getD 1 0 - [(0 : ℚ), 1].getD 0 0) ∧
    leapfrog_dt (fun _ => true) [0, 1] 15 ≤
      [(0 : ℚ), 1].getD 1 0 - [(0 : ℚ), 1].getD 0 0 ∧
    1 ≤ leapfrog_ndt (fun _ => true) [0, 1] 15 := by
  have h := C10_at_least_one_substep (fun _ => true) [0, 1] 15 (by norm_num)
    (by norm_num)
  exact ⟨⟨by norm_num, by norm_num⟩, h.1, h.2.1⟩

/-- Claim C7: for every call of _leapfrog or leapfrog_cyl with at least two
requested times and shape-preserving force/drift/kick functions, the
trajectory has exactly len(t) rows of len(yo) entries each, the first row is
the initial condition yo (for the cylindrical non-meridional case with more
than two phase-space dimensions this holds after the vT -> vT*R substitution
is reversed on output, which requires the radius yo[0] to be nonzero), and
no intermediate sub-step states appear as rows. -/
theorem C7_trajectory_shape :
    (∀ (func : List ℚ → ℚ → List ℚ) (big : ℚ → Bool) (yo t : List ℚ)
        (fuel : ℕ),
      (∀ q s, (func q s).length = q.length) → 2 ≤ t.length →
      yo.length % 2 = 0 →
      (_leapfrog func big yo t fuel).length = t.length ∧
      (_leapfrog func big yo t fuel).getD 0 [] = yo ∧
      ∀ r ∈ _leapfrog func big yo t fuel, r.length = yo.length) ∧
    (∀ (drift : List ℚ → List ℚ) (kick : List ℚ → ℚ → List ℚ)
        (big : ℚ → Bool) (yo t : List ℚ) (fuel : ℕ) (meridional : Bool),
      (∀ y, (drift y).length = y.length) →
      (∀ y s, (kick y s).length = y.length) →
      2 ≤ t.length →
      (meridional = false → yo.length ≠ 2 →
        2 < yo.length ∧ yo.getD 0 0 ≠ 0) →
      (leapfrog_cyl drift kick big yo t fuel meridional).length = t.length ∧
      (leapfrog_cyl drift kick big yo t fuel meridional).getD 0 [] = yo ∧
      ∀ r ∈ leapfrog_cyl drift kick big yo t fuel meridional,
        r.length = yo.length) := by
  constructor
  · intro func big yo t fuel hfunc ht heven
    have hq : (yo.take (yo.length / 2)).length = yo.length / 2 := by
      rw [List.length_take]
      omega
    have hp : (yo.drop (yo.length / 2)).length = yo.length / 2 := by
      rw [List.length_drop]
      omega
    obtain ⟨hrlen, hrmem⟩ := leapfrog_rows_spec func hfunc
      (leapfrog_dt big t fuel) (leapfrog_ndt big t fuel) (yo.length / 2)
      (t.length - 1)
      (yo.take (yo.length / 2), yo.drop (yo.length / 2), t.getD 0 0) hq hp
    refine ⟨?_, ?_, ?_⟩
    · simp only [_leapfrog, List.length_cons, hrlen]
      omega
    · simp only [_leapfrog, List.getD_cons_zero]
    · intro r hr
      simp only [_leapfrog] at hr
      rcases List.mem_cons.mp hr with rfl | hr'
      · rfl
      · rw [hrmem r hr']
        omega
  · intro drift kick big yo t fuel meridional hd hk ht hsub
    simp only [leapfrog_cyl]
    split_ifs with hc
    · obtain ⟨h2lt, h0ne⟩ := hsub hc.1 hc.2
      have hylen : (yo.set 2 (yo.getD 2 0 * yo.getD 0 0)).length =
          yo.length := List.length_set yo 2 _
      obtain ⟨hrlen, hrmem⟩ := leapfrog_cyl_rows_spec drift kick hd hk
        (leapfrog_cyl_dt big t fuel) (leapfrog_cyl_dt big t fuel / 2)
        (leapfrog_cyl_ndt big t fuel) yo.length (t.length - 1)
        (yo.set 2 (yo.getD 2 0 * yo.getD 0 0), t.getD 0 0) hylen
      refine ⟨?_, ?_, ?_⟩
      · rw [List.length_map, List.length_cons, hrlen]
        omega
      · rw [List.map_cons, List.getD_cons_zero]
        rw [getD_set_self yo _ 2 h2lt, getD_set_ne yo _ 2 0 (by omega),
          List.set_set, mul_div_cancel_right₀ _ h0ne, set_getD_self yo 2 h2lt]
      · intro r hr
        obtain ⟨a, ha, rfl⟩ := List.mem_map.mp hr
        rw [List.length_set]
        rcases List.mem_cons.mp ha with rfl | ha'
        · exact hylen
        · exact hrmem a ha'
    · have hylen : yo.length = yo.length := rfl
      obtain ⟨hrlen, hrmem⟩ := leapfrog_cyl_rows_spec drift kick hd hk
        (leapfrog_cyl_dt big t fuel) (leapfrog_cyl_dt big t fuel / 2)
        (leapfrog_cyl_ndt big t fuel) yo.length (t.length - 1)
        (yo, t.getD 0 0) hylen
      refine ⟨?_, ?_, ?_⟩
      · rw [List.length_cons, hrlen]
        omega
      · rw [List.getD_cons_zero]
      · intro r hr
        rcases List.mem_cons.mp hr with rfl | hr'
        · rfl
        · exact hrmem r hr'

/-- Witness for C7: the unit-frequency harmonic force with yo = [1, 0] and
t = [0, 1, 2] for _leapfrog, and constant-zero drift and kick with a
4-dimensional cylindrical state for leapfrog_cyl. -/
theorem C7_witness :
    ((_leapfrog (fun q _ => q.map (fun x => -x)) (fun _ => false)
        [1, 0] [0, 1, 2] 15).length = 3 ∧
      (_leapfrog (fun q _ => q.map (fun x => -x)) (fun _ => false)
        [1, 0] [0, 1, 2] 15).getD 0 [] = [1, 0]) ∧
    ((leapfrog_cyl (fun y => y.map (fun x => 0 * x))
        (fun y _ => y.map (fun x => 0 * x)) (fun _ => false)
        [1, 0, 2, 0] [0, 1] 15 false).length = 2 ∧
      (leapfrog_cyl (fun y => y.map (fun x => 0 * x))
        (fun y _ => y.map (fun x => 0 * x)) (fun _ => false)
        [1, 0, 2, 0] [0, 1] 15 false).getD 0 [] = [1, 0, 2, 0]) := by
  have h1 := C7_trajectory_shape.1 (fun q _ => q.map (fun x => -x))
    (fun _ => false) [1, 0] [0, 1, 2] 15
    (fun q s => by simp) (by norm_num) (by norm_num)
  have h2 := C7_trajectory_shape.2 (fun y => y.map (fun x => 0 * x))
    (fun y _ => y.map (fun x => 0 * x)) (fun _ => false)
    [1, 0, 2, 0] [0, 1] 15 false
    (fun y => by simp) (fun y s => by simp) (by norm_num)
    (fun _ _ => ⟨by norm_num, by norm_num⟩)
  exact ⟨⟨h1.1, h1.2.1⟩, ⟨h2.1, h2.2.1⟩⟩

/-! ## Inverse vertical action-angle machinery
(actionAngle_src/actionAngleVerticalInverse.py)

The potential evaluator evaluatelinearPotentials is an external collaborator
and enters as a function parameter V.  The transcendental pieces sqrt and
arctan2 enter as function parameters as well; the claims below concern only
the structure built around them. -/

/-- Squared velocity 2*(E - V(x)) before clipping (line 301 of _anglea). -/
def v2raw (V : ℚ → ℚ) (x E : ℚ) : ℚ := 2 * (E - V x)

/-- Squared velocity after the clip v2[v2 < 0.] = 0. (line 302 of _anglea). -/
def v2clipped (V : ℚ → ℚ) (x E : ℚ) : ℚ :=
  if v2raw V x E < 0 then 0 else v2raw V x E

/-- Model of _anglea (lines 284-303): the auxiliary angle
arctan2(omega*x, vsign*sqrt(v2)) with the clipped squared velocity; sqrtF
and atan2F are parameters standing for numpy.sqrt and numpy.arctan2. -/
def _anglea (sqrtF : ℚ → ℚ) (atan2F : ℚ → ℚ → ℚ) (V : ℚ → ℚ)
    (x E omega vsign : ℚ) : ℚ :=
  atan2F (omega * x) (vsign * sqrtF (v2clipped V x E))

/-- Model of _ja (lines 329-345): the auxiliary action
(E - V(x))/omega + omega*x^2/2, a closed form with no transcendentals
beyond the potential. -/
def _ja (V : ℚ → ℚ) (x E omega : ℚ) : ℚ :=
  (E - V x) / omega + omega * x ^ 2 / 2

/-- Claim C9: the auxiliary-angle function _anglea is total; the squared
velocity is clipped to zero exactly when negative (it equals
max(2*(E - V(x)), 0)), so the square root is only ever applied to the
nonnegative clipped value, for every position including those beyond the
turning points. -/
theorem C9_anglea_total (sqrtF : ℚ → ℚ) (atan2F : ℚ → ℚ → ℚ) (V : ℚ → ℚ)
    (x E omega vsign : ℚ) :
    0 ≤ v2clipped V x E ∧
    v2clipped V x E = max (v2raw V x E) 0 ∧
    _anglea sqrtF atan2F V x E omega vsign =
      atan2F (omega * x) (vsign * sqrtF (v2clipped V x E)) := by
  refine ⟨?_, ?_, rfl⟩
  · rw [v2clipped]
    split_ifs with h
    · exact le_refl 0
    · exact not_lt.mp h
  · rw [v2clipped]
    split_ifs with h
    · exact (max_eq_right (le_of_lt h)).symm
    · exact (max_eq_left (not_lt.mp h)).symm

/-- Index of the torus chosen by _xvFreqs and _Freqs (lines 206 and 279):
numpy.argmin(numpy.fabs(j - js)). -/
def torusIndex (j : ℚ) (js : List ℚ) : ℕ :=
  np_argmin (js.map (fun a => |j - a|))

/-- Model of _Freqs (lines 255-282): nearest-torus lookup followed by the
1e-10 gate raising ValueError('Given action/energy not found'). -/
def _Freqs (j : ℚ) (js Omegas : List ℚ) : Except String ℚ :=
  let indx := torusIndex j js
  if lookupTol < |j - js.getD indx 0| then
    Except.error "Given action/energy not found"
  else Except.ok (Omegas.getD indx 0)

/-- Model of _xvFreqs (lines 180-253).  The Newton inversion of the angle
map and the harmonic inverse map (lines 209-253) run entirely inside the
chosen torus indx; they involve sin/cos/sqrt and are abstracted as the
parameter body, a function of the torus index alone, which also makes
explicit that no interpolation between tori happens. -/
def _xvFreqs (body : ℕ → List ℚ × List ℚ) (j : ℚ) (js Omegas : List ℚ) :
    Except String (List ℚ × List ℚ × ℚ) :=
  let indx := torusIndex j js
  if lookupTol < |j - js.getD indx 0| then
    Except.error "Given action/energy not found"
  else Except.ok ((body indx).1, (body indx).2, Omegas.getD indx 0)

/-- Model of _evaluate (lines 153-178): the first two components of
_xvFreqs. -/
def _evaluate (body : ℕ → List ℚ × List ℚ) (j : ℚ) (js Omegas : List ℚ) :
    Except String (List ℚ × List ℚ) :=
  (_xvFreqs body j js Omegas).map (fun r => (r.1, r.2.1))

/-- Claim C3: the torus index minimizes |j - J| over the stored actions;
_xvFreqs, _evaluate and _Freqs raise ValueError('Given action/energy not
found') exactly when that minimum distance exceeds 1e-10, and on success
they return data of the chosen torus only. -/
theorem C3_torus_lookup (body : ℕ → List ℚ × List ℚ) (j : ℚ)
    (js Omegas : List ℚ) (hne : js ≠ []) :
    (∀ m, m < js.length →
      |j - js.getD (torusIndex j js) 0| ≤ |j - js.getD m 0|) ∧
    (_Freqs j js Omegas = Except.error "Given action/energy not found" ↔
      lookupTol < |j - js.getD (torusIndex j js) 0|) ∧
    (¬ lookupTol < |j - js.getD (torusIndex j js) 0| →
      _Freqs j js Omegas = Except.ok (Omegas.getD (torusIndex j js) 0)) ∧
    (_xvFreqs body j js Omegas =
        Except.error "Given action/energy not found" ↔
      lookupTol < |j - js.getD (torusIndex j js) 0|) ∧
    (¬ lookupTol < |j - js.getD (torusIndex j js) 0| →
      _xvFreqs body j js Omegas = Except.ok
        ((body (torusIndex j js)).1, (body (torusIndex j js)).2,
          Omegas.getD (torusIndex j js) 0)) ∧
    (_evaluate body j js Omegas =
        Except.error "Given action/energy not found" ↔
      lookupTol < |j - js.getD (torusIndex j js) 0|) := by
  have hmin : ∀ m, m < js.length →
      |j - js.getD (torusIndex j js) 0| ≤ |j - js.getD m 0| := by
    intro m hm
    have hspec := (np_argmin_spec (js.map (fun a => |j - a|))).2
    have hlt : torusIndex j js < js.length := by
      have := (np_argmin_spec (js.map (fun a => |j - a|))).1
        (by simpa using hne)
      simpa [torusIndex] using this
    have h1 : (js.map (fun a => |j - a|)).getD (torusIndex j js) 0 =
        |j - js.getD (torusIndex j js) 0| := by
      simp [List.getD_eq_getElem?_getD, List.getElem?_map,
        List.getElem?_eq_getElem hlt]
    have h2 : (js.map (fun a => |j - a|)).getD m 0 = |j - js.getD m 0| := by
      simp [List.getD_eq_getElem?_getD, List.getElem?_map,
        List.getElem?_eq_getElem hm]
    have := hspec m (by simpa using hm)
    rw [torusIndex] at h1 ⊢
    rw [h1, h2] at this
    exact this
  by_cases hgate : lookupTol < |j - js.getD (torusIndex j js) 0|
  · have hgate' := hgate
    simp only [List.getD_eq_getElem?_getD] at hgate'
    refine ⟨hmin, ?_, ?_, ?_, ?_, ?_⟩ <;>
      simp [_Freqs, _xvFreqs, _evaluate, hgate, hgate', Except.map]
  · have hgate' := hgate
    simp only [List.getD_eq_getElem?_getD] at hgate'
    refine ⟨hmin, ?_, ?_, ?_, ?_, ?_⟩ <;>
      simp [_Freqs, _xvFreqs, _evaluate, hgate, hgate', Except.map]

/-- Witness for C3: stored actions [1, 2] with query j = 3/2 (distance 1/2
from both tori, far beyond 1e-10, so the lookup fails) showing the error
characterization at a concrete input. -/
theorem C3_witness :
    ([(1 : ℚ), 2] ≠ ([] : List ℚ)) ∧
    (_Freqs (3 / 2) [1, 2] [5, 7] =
        Except.error "Given action/energy not found" ↔
      lookupTol < |(3 / 2 : ℚ) - [(1 : ℚ), 2].getD (torusIndex (3 / 2) [1, 2]) 0|) := by
  have h := C3_torus_lookup (fun _ => ([], [])) (3 / 2) [1, 2] [5, 7]
    (by simp)
  exact ⟨by simp, h.2.1⟩

/-- Mean of a numpy array row (numpy.mean along the angle axis). -/
def qmean (l : List ℚ) : ℚ := l.sum / l.length

/-- Per-construction torus data assembled by __init__ after the grid is
built (lines 74-82).  The xgrid matrix, the initial solver actions js_init,
the energies and the harmonic frequencies are inputs here; ja is the
auxiliary-action matrix, js the stored actions, js_orig the retained
initial estimates and fourierInput the matrix ja - js[:, None] handed to
numpy.fft.rfft for the nSn coefficients (line 81). -/
structure TorusData where
  js_orig : List ℚ
  js : List ℚ
  ja : List (List ℚ)
  fourierInput : List (List ℚ)

/-- Model of __init__ lines 74-82: ja = _ja(xgrid, Egrid, pot, omegagrid),
js_orig = copy(js), js = mean(ja, axis=1), and ja - js broadcast along the
rows as the input of the rfft for nSn. -/
def buildTorusData (V : ℚ → ℚ) (js_init Es omegas : List ℚ)
    (xgrid : List (List ℚ)) : TorusData :=
  let ja := List.zipWith
    (fun row Eo => row.map (fun x => _ja V x Eo.1 Eo.2))
    xgrid (List.zip Es omegas)
  { js_orig := js_init
    js := ja.map qmean
    ja := ja
    fourierInput := List.zipWith (fun row m => row.map (fun a => a - m))
      ja (ja.map qmean) }

/-- Claim C8: after construction the stored action of each torus is the
arithmetic mean of the auxiliary action Ja over that torus's angle grid,
the solver's initial estimate is retained separately in js_orig, the torus
lookup runs over these grid means, and the mode-0 offset subtracted from Ja
before the Fourier coefficients are computed is this same grid mean. -/
theorem C8_grid_mean_action (V : ℚ → ℚ) (js_init Es omegas : List ℚ)
    (xgrid : List (List ℚ)) :
    (buildTorusData V js_init Es omegas xgrid).js =
      (buildTorusData V js_init Es omegas xgrid).ja.map qmean ∧
    (buildTorusData V js_init Es omegas xgrid).js_orig = js_init ∧
    (∀ j Omegas, _Freqs j (buildTorusData V js_init Es omegas xgrid).js Omegas
      = _Freqs j ((buildTorusData V js_init Es omegas xgrid).ja.map qmean)
          Omegas) ∧
    (∀ i k, i < (buildTorusData V js_init Es omegas xgrid).ja.length →
      k < ((buildTorusData V js_init Es omegas xgrid).ja.getD i []).length →
      ((buildTorusData V js_init Es omegas xgrid).fourierInput.getD i []).getD
          k 0 =
        ((buildTorusData V js_init Es omegas xgrid).ja.getD i []).getD k 0 -
          qmean ((buildTorusData V js_init Es omegas xgrid).ja.getD i [])) := by
  refine ⟨rfl, rfl, fun j Omegas => rfl, ?_⟩
  intro i k hi hk
  set ja := (buildTorusData V js_init Es omegas xgrid).ja with hja
  have hfi : (buildTorusData V js_init Es omegas xgrid).fourierInput =
      List.zipWith (fun row m => row.map (fun a => a - m)) ja (ja.map qmean) :=
    rfl
  rw [hfi]
  have hzip : (List.zipWith (fun row m => row.map (fun a => a - m)) ja
      (ja.map qmean)).getD i [] = (ja.getD i []).map
        (fun a => a - qmean (ja.getD i [])) := by
    have hi' : i < (List.zipWith (fun row m => row.map (fun a => a - m)) ja
        (ja.map qmean)).length := by
      rw [List.length_zipWith, List.length_map]
      omega
    rw [List.getD_eq_getElem?_getD, List.getElem?_eq_getElem hi',
      List.getElem_zipWith]
    simp [List.getD_eq_getElem?_getD, List.getElem?_eq_getElem hi]
  rw [hzip]
  simp only [List.getD_eq_getElem?_getD] at hk ⊢
  rw [List.getElem?_map, List.getElem?_eq_getElem hk]
  simp

/-- Witness for C8 at a concrete 2x2 grid with V(x) = x^2/2. -/
theorem C8_witness :
    (buildTorusData (fun x => x ^ 2 / 2) [5, 6] [1, 2] [1, 1]
        [[1, 2], [3, 4]]).js =
      (buildTorusData (fun x => x ^ 2 / 2) [5, 6] [1, 2] [1, 1]
        [[1, 2], [3, 4]]).ja.map qmean ∧
    (buildTorusData (fun x => x ^ 2 / 2) [5, 6] [1, 2] [1, 1]
        [[1, 2], [3, 4]]).js_orig = [5, 6] ∧
    ((buildTorusData (fun x => x ^ 2 / 2) [5, 6] [1, 2] [1, 1]
        [[1, 2], [3, 4]]).fourierInput.getD 0 []).getD 0 0 =
      ((buildTorusData (fun x => x ^ 2 / 2) [5, 6] [1, 2] [1, 1]
        [[1, 2], [3, 4]]).ja.getD 0 []).getD 0 0 -
        qmean ((buildTorusData (fun x => x ^ 2 / 2) [5, 6] [1, 2] [1, 1]
          [[1, 2], [3, 4]]).ja.getD 0 []) := by
  have h := C8_grid_mean_action (fun x => x ^ 2 / 2) [5, 6] [1, 2] [1, 1]
    [[1, 2], [3, 4]]
  exact ⟨h.1, h.2.1, h.2.2.2 0 0 (by decide) (by decide)⟩

/-! ## Torus grid construction (_create_xgrid, lines 86-151)

The auxiliary-angle function _anglea(x, E, pot, omega, vsign) and its
analytic derivative _danglea are transcendental (arctan2, sqrt); for a fixed
torus (fixed E, omega, potential) they are functions of the position and the
velocity-branch sign only, and enter the per-torus model as the parameters
f (x, vsign) and df x of TorusRowParams.  Everything else - the dense seed
grid, the nearest-seed start, the masking, the Newton loop with step
clipping and clamping, the quarter-grid mirroring and the vsign = -1 angle
recomputation - is translated from the source.  The rows of the xgrid
matrix are processed element-independently by the vectorized source (the
boolean unconv mask decouples all grid points), so one row is modelled;
the energy index i of the claims becomes the choice of TorusRowParams. -/

structure TorusRowParams where
  nta : ℕ
  xmax : ℚ
  f : ℚ → ℚ → ℚ
  df : ℚ → ℚ

/-- Target auxiliary-angle grid numpy.linspace(0, 2*pi*(1-1/nta), nta)
(line 72): entry k is 2*pi*(1-1/nta)*k/(nta-1). -/
def thetaa (nta k : ℕ) : ℚ :=
  2 * npPi * (1 - 1 / (nta : ℚ)) * k / ((nta : ℚ) - 1)

/-- Dense seed grid numpy.linspace(-1, 1, 2*nta) (line 91): entry j is
-1 + 2*j/(2*nta-1). -/
def seedx (nta j : ℕ) : ℚ := -1 + 2 * j / (2 * (nta : ℚ) - 1)

/-- Wrapped distance of the auxiliary angle at seed j (scaled by xmax, with
the +v branch, line 93) from the target angle of column k (lines 96-98). -/
def seedDist (p : TorusRowParams) (k j : ℕ) : ℚ :=
  |qwrap (p.f (seedx p.nta j * p.xmax) 1 - thetaa p.nta k)|

/-- Start index for column k: numpy.argmin over the 2*nta seeds
(lines 96-98). -/
def cindx (p : TorusRowParams) (k : ℕ) : ℕ :=
  np_argmin ((List.range (2 * p.nta)).map (seedDist p k))

/-- Starting position of column k (line 99). -/
def x0 (p : TorusRowParams) (k : ℕ) : ℚ := seedx p.nta (cindx p k) * p.xmax

/-- Auxiliary angle at the starting position (line 103). -/
def ta0 (p : TorusRowParams) (k : ℕ) : ℚ := p.f (x0 p k) 1

/-- Position clamping of lines 123-124.  Note that line 124 assigns
xmaxgrid, not -xmaxgrid, to positions below -xmax: a position that falls
below -xmax is set to +xmax. -/
def clampX (xmax x : ℚ) : ℚ :=
  if x > xmax then xmax else if x < -xmax then xmax else x

/-- One Newton-Raphson position update (lines 117-124): dx = -dta/(dtheta/dx),
clipped to magnitude xmax/nta, applied, then clamped. -/
def newtonUpdate (p : TorusRowParams) (x dta : ℚ) : ℚ :=
  let dx0 := -dta / p.df x
  let dx := if |dx0| > p.xmax / (p.nta : ℚ) then
    qsign dx0 * (p.xmax / (p.nta : ℚ)) else dx0
  clampX p.xmax (x + dx)

/-- The Newton loop of lines 116-136, per grid point.  A grid point that is
still unconverged gets the update of lines 117-124; the convergence check
of line 125 uses the residual dta computed before the update, and the
stored angle ta of a point that just converged is not recomputed at its
final position (line 126-128 updates ta only for still-unconverged
points).  Returns (position, stored angle, converged flag); fuel 0 is the
iteration cap (cntr > maxiter, lines 133-135), which warns and returns the
best-effort state. -/
def newtonLoop (p : TorusRowParams) (theta : ℚ) :
    ℕ → ℚ → ℚ → ℚ × ℚ × Bool
  | 0, x, ta => (x, ta, false)
  | fuel + 1, x, ta =>
    let dta := qwrap (ta - theta)
    let xp := newtonUpdate p x dta
    if |dta| > tolGrid then newtonLoop p theta fuel xp (p.f xp 1)
    else (xp, ta, true)

/-- Solve column k: points already within tolerance at the seed are pruned
before the loop (lines 112-113) and keep their seed position; the others
run the Newton loop with the cap of 100 (the loop body executes at most 101
times before the cntr > maxiter break). -/
def solveCol (p : TorusRowParams) (k : ℕ) : ℚ × ℚ × Bool :=
  if |qwrap (ta0 p k - thetaa p.nta k)| > tolGrid then
    newtonLoop p (thetaa p.nta k) 101 (x0 p k) (ta0 p k)
  else (x0 p k, ta0 p k, true)

/-- Initial unconverged mask of line 111: unconv[:, nta//4 : 3*nta//4+1] is
set to False, so exactly the columns k < nta//4 or k > 3*nta//4 are handed
to the Newton iteration. -/
def newtonMask (nta k : ℕ) : Bool := decide (k < nta / 4 ∨ 3 * nta / 4 < k)

/-- Position of column k after the Newton phase, before mirroring. -/
def rawX (p : TorusRowParams) (k : ℕ) : ℚ :=
  if newtonMask p.nta k then (solveCol p k).1 else x0 p k

/-- Stored angle of column k after the Newton phase, before the vsign = -1
recomputation. -/
def rawTa (p : TorusRowParams) (k : ℕ) : ℚ :=
  if newtonMask p.nta k then (solveCol p k).2.1 else ta0 p k

/-- Convergence flag of column k; masked-out columns never enter unconv and
never block the loop exit. -/
def colConverged (p : TorusRowParams) (k : ℕ) : Bool :=
  if newtonMask p.nta k then (solveCol p k).2.2 else true

/-- All tracked grid points of the row converged: the loop exited through
numpy.sum(unconv) == 0 (line 130) and not through the iteration cap. -/
def allConverged (p : TorusRowParams) : Bool :=
  (List.range p.nta).all (colConverged p)

/-- Final positions after the mirror fills of lines 137-138:
xgrid[:, nta//4+1 : nta//2+1] = xgrid[:, :nta//4][:, ::-1] and
xgrid[:, nta//2+1 : 3*nta//4+1] = xgrid[:, 3*nta//4:][:, ::-1], which send
column k to source column 2*(nta//4)-k and nta+nta//2-k respectively. -/
def xFinal (p : TorusRowParams) (k : ℕ) : ℚ :=
  if p.nta / 4 + 1 ≤ k ∧ k ≤ p.nta / 2 then rawX p (2 * (p.nta / 4) - k)
  else if p.nta / 2 + 1 ≤ k ∧ k ≤ 3 * p.nta / 4 then
    rawX p (p.nta + p.nta / 2 - k)
  else rawX p k

/-- Final stored angles after the vsign = -1 recomputation of lines 139-144,
which covers exactly the columns nta//4+1 .. 3*nta//4-1. -/
def taFinal (p : TorusRowParams) (k : ℕ) : ℚ :=
  if p.nta / 4 + 1 ≤ k ∧ k ≤ 3 * p.nta / 4 - 1 then p.f (xFinal p k) (-1)
  else rawTa p k

/-- Stored residual self._dta = (ta - mta + pi) % (2*pi) - pi of line 145. -/
def dtaFinal (p : TorusRowParams) (k : ℕ) : ℚ :=
  qwrap (taFinal p k - thetaa p.nta k)

theorem npPi_bounds : (3 : ℚ) < npPi ∧ npPi < 4 := by norm_num [npPi]

/-- Wrapping is the identity strictly inside [-pi, pi); in particular on
[-3, 3]. -/
theorem qwrap_id (a : ℚ) (h1 : -npPi ≤ a) (h2 : a < npPi) : qwrap a = a := by
  have hpi : 0 < npPi := lt_trans (by norm_num) npPi_bounds.1
  rw [qwrap_eq_floor]
  have hfloor : ⌊(a + npPi) / (2 * npPi)⌋ = 0 := by
    rw [Int.floor_eq_zero_iff, Set.mem_Ico]
    constructor
    · apply div_nonneg <;> linarith
    · rw [div_lt_one (by linarith)]
      linarith
  rw [hfloor]
  push_cast
  ring

theorem qwrap_small (a : ℚ) (h1 : -3 ≤ a) (h2 : a ≤ 3) : qwrap a = a := by
  have h := npPi_bounds
  exact qwrap_id a (by linarith [h.1]) (by linarith [h.1])

theorem thetaa_zero (nta : ℕ) : thetaa nta 0 = 0 := by simp [thetaa]

theorem thetaa_four_two : thetaa 4 2 = npPi := by
  rw [thetaa]
  push_cast
  ring

theorem thetaa_eight_one : thetaa 8 1 = npPi / 4 := by
  rw [thetaa]
  push_cast
  ring

/-- Concrete auxiliary-angle function used for counterexample runs: at the
+v branch it is 1/2 at x = -1, 1e-12 at x = -3/4, and 1 elsewhere. -/
def fCex (x v : ℚ) : ℚ :=
  if v = 1 then
    (if x = -1 then 1 / 2 else if x = -(3 / 4) then 1 / 10 ^ 12 else 1)
  else 1

/-- Matching angle-derivative function for the counterexample runs. -/
def dfCex (x : ℚ) : ℚ :=
  if x = -1 then -(1 / 2) else if x = -(3 / 4) then 1 / 10 ^ 12 else 1

/-- Counterexample torus: nta = 4, xmax = 1. -/
def pCex : TorusRowParams := ⟨4, 1, fCex, dfCex⟩

theorem pCex_cindx : cindx pCex 0 = 0 := by
  have hd0 : seedDist pCex 0 0 = 1 / 2 := by
    rw [seedDist]
    show |qwrap (fCex (seedx 4 0 * 1) 1 - thetaa 4 0)| = 1 / 2
    rw [show seedx 4 0 * 1 = (-1 : ℚ) by norm_num [seedx],
      show fCex (-1) 1 = 1 / 2 by norm_num [fCex], thetaa_zero, sub_zero,
      qwrap_small _ (by norm_num) (by norm_num)]
    norm_num
  have hd : ∀ j, 1 ≤ j → j ≤ 7 → seedDist pCex 0 j = 1 := by
    intro j hj1 hj7
    rw [seedDist]
    show |qwrap (fCex (seedx 4 j * 1) 1 - thetaa 4 0)| = 1
    have hne1 : seedx 4 j ≠ -1 := by
      rw [seedx]
      interval_cases j <;> norm_num
    have hne2 : seedx 4 j ≠ -(3 / 4) := by
      rw [seedx]
      interval_cases j <;> norm_num
    rw [mul_one,
      show fCex (seedx 4 j) 1 = 1 by rw [fCex]; norm_num [hne1, hne2],
      thetaa_zero, sub_zero, qwrap_small _ (by norm_num) (by norm_num)]
    norm_num
  have hlist : (List.range (2 * pCex.nta)).map (seedDist pCex 0) =
      [1 / 2, 1, 1, 1, 1, 1, 1, 1] := by
    show (List.range 8).map (seedDist pCex 0) = _
    rw [show List.range 8 = [0, 1, 2, 3, 4, 5, 6, 7] from rfl]
    simp only [List.map_cons, List.map_nil]
    rw [hd0, hd 1 (by norm_num) (by norm_num), hd 2 (by norm_num) (by norm_num),
      hd 3 (by norm_num) (by norm_num), hd 4 (by norm_num) (by norm_num),
      hd 5 (by norm_num) (by norm_num), hd 6 (by norm_num) (by norm_num),
      hd 7 (by norm_num) (by norm_num)]
  rw [cindx, hlist]
  norm_num [np_argmin]

theorem newtonLoop_succ (p : TorusRowParams) (theta : ℚ) (fuel : ℕ)
    (x ta : ℚ) :
    newtonLoop p theta (fuel + 1) x ta =
      if |qwrap (ta - theta)| > tolGrid then
        newtonLoop p theta fuel (newtonUpdate p x (qwrap (ta - theta)))
          (p.f (newtonUpdate p x (qwrap (ta - theta))) 1)
      else (newtonUpdate p x (qwrap (ta - theta)), ta, true) := rfl

theorem pCex_solve : solveCol pCex 0 = (-1, 1 / 10 ^ 12, true) := by
  have hx0 : x0 pCex 0 = -1 := by
    rw [x0, pCex_cindx]
    show seedx 4 0 * 1 = -1
    norm_num [seedx]
  have hta0 : ta0 pCex 0 = 1 / 2 := by
    rw [ta0, hx0]
    show fCex (-1) 1 = 1 / 2
    norm_num [fCex]
  have hup1 : newtonUpdate pCex (-1) (1 / 2) = -(3 / 4) := by
    norm_num [newtonUpdate, pCex, dfCex, qsign, clampX]
  have hup2 : newtonUpdate pCex (-(3 / 4)) (1 / 10 ^ 12) = -1 := by
    norm_num [newtonUpdate, pCex, dfCex, qsign, clampX]
  have hth : thetaa pCex.nta 0 = 0 := thetaa_zero _
  have habs2 : |(1 / 2 : ℚ)| > tolGrid := by
    rw [abs_of_pos (by norm_num : (0 : ℚ) < 1 / 2)]
    norm_num [tolGrid]
  have habs12 : ¬ |(1 / 10 ^ 12 : ℚ)| > tolGrid := by
    rw [abs_of_pos (by norm_num : (0 : ℚ) < 1 / 10 ^ 12)]
    norm_num [tolGrid]
  rw [solveCol, hth, hta0, hx0, sub_zero,
    qwrap_small _ (by norm_num) (by norm_num), if_pos habs2]
  rw [show (101 : ℕ) = 100 + 1 from rfl, newtonLoop_succ]
  rw [sub_zero, qwrap_small _ (by norm_num) (by norm_num), hup1,
    if_pos habs2,
    show pCex.f (-(3 / 4)) 1 = 1 / 10 ^ 12 from by
      show fCex (-(3 / 4)) 1 = 1 / 10 ^ 12
      norm_num [fCex]]
  rw [show (100 : ℕ) = 99 + 1 from rfl, newtonLoop_succ]
  rw [sub_zero, qwrap_small _ (by norm_num) (by norm_num), hup2,
    if_neg habs12]

theorem pCex_allConverged : allConverged pCex = true := by
  have h0 : colConverged pCex 0 = true := by
    rw [colConverged, if_pos (show newtonMask pCex.nta 0 = true from rfl),
      pCex_solve]
  rw [allConverged, show List.range pCex.nta = [0, 1, 2, 3] from rfl]
  simp only [List.all_cons, List.all_nil]
  rw [h0]
  rfl

theorem pCex_xFinal_zero : xFinal pCex 0 = -1 := by
  rw [xFinal,
    if_neg (by decide : ¬ (pCex.nta / 4 + 1 ≤ 0 ∧ 0 ≤ pCex.nta / 2)),
    if_neg (by decide : ¬ (pCex.nta / 2 + 1 ≤ 0 ∧ 0 ≤ 3 * pCex.nta / 4)),
    rawX, if_pos (show newtonMask pCex.nta 0 = true from rfl), pCex_solve]

theorem pCex_xFinal_two : xFinal pCex 2 = -1 := by
  rw [xFinal, if_pos (by decide : pCex.nta / 4 + 1 ≤ 2 ∧ 2 ≤ pCex.nta / 2),
    show 2 * (pCex.nta / 4) - 2 = 0 from rfl,
    rawX, if_pos (show newtonMask pCex.nta 0 = true from rfl), pCex_solve]

theorem newtonLoop_converged (p : TorusRowParams) (theta : ℚ) :
    ∀ (fuel : ℕ) (x ta : ℚ), (newtonLoop p theta fuel x ta).2.2 = true →
      |qwrap ((newtonLoop p theta fuel x ta).2.1 - theta)| ≤ tolGrid := by
  intro fuel
  induction fuel with
  | zero =>
    intro x ta h
    exact absurd h (by simp [newtonLoop])
  | succ n ih =>
    intro x ta h
    rw [newtonLoop_succ] at h ⊢
    by_cases hc : |qwrap (ta - theta)| > tolGrid
    · rw [if_pos hc] at h ⊢
      exact ih _ _ h
    · rw [if_neg hc]
      exact not_lt.mp hc

/-- Trivial torus whose constant-zero angle function converges at the seed
of every tracked column. -/
def pTriv : TorusRowParams := ⟨4, 1, fun _ _ => 0, fun _ => 1⟩

theorem pTriv_allConverged : allConverged pTriv = true := by
  have h0 : colConverged pTriv 0 = true := by
    rw [colConverged, if_pos (show newtonMask pTriv.nta 0 = true from rfl),
      solveCol, if_neg]
    rw [show ta0 pTriv 0 = 0 from rfl, thetaa_zero, sub_zero,
      qwrap_small 0 (by norm_num) (by norm_num)]
    norm_num [tolGrid]
  rw [allConverged, show List.range pTriv.nta = [0, 1, 2, 3] from rfl]
  simp only [List.all_cons, List.all_nil]
  rw [h0]
  rfl

/-- Claim C1 (amended): if the grid construction completes with every
tracked grid point converged, then for every directly-solved column
(newtonMask true, i.e. k < nta/4 or k > 3*nta/4) the STORED auxiliary angle
- the angle the loop last evaluated before the point's final Newton update -
has wrapped residual at most 1e-12 against thetaa[k].  (As the claim
originally read, with the angle recomputed at the final stored position
xgrid[i][k], it is false: see the counterexample.) -/
theorem C1_stored_residual (p : TorusRowParams) (k : ℕ)
    (hconv : allConverged p = true) (hk : k < p.nta)
    (hmask : newtonMask p.nta k = true) :
    |dtaFinal p k| ≤ tolGrid := by
  have hmask' : k < p.nta / 4 ∨ 3 * p.nta / 4 < k := of_decide_eq_true hmask
  have hta : taFinal p k = rawTa p k := by
    rw [taFinal, if_neg]
    rintro ⟨ha, hb⟩
    omega
  have hcc : colConverged p k = true := by
    have hall := List.all_eq_true.mp hconv k (List.mem_range.mpr hk)
    exact hall
  rw [colConverged, if_pos hmask] at hcc
  rw [dtaFinal, hta, rawTa, if_pos hmask]
  rw [solveCol] at hcc ⊢
  by_cases hpre : |qwrap (ta0 p k - thetaa p.nta k)| > tolGrid
  · rw [if_pos hpre] at hcc ⊢
    exact newtonLoop_converged p _ 101 _ _ hcc
  · rw [if_neg hpre]
    exact not_lt.mp hpre

/-- Witness for the amended C1 at the trivial torus pTriv, column 0. -/
theorem C1_witness :
    (allConverged pTriv = true ∧ 0 < pTriv.nta ∧
      newtonMask pTriv.nta 0 = true) ∧
    |dtaFinal pTriv 0| ≤ tolGrid := by
  refine ⟨⟨pTriv_allConverged, by decide, rfl⟩, ?_⟩
  exact C1_stored_residual pTriv 0 pTriv_allConverged (by decide) rfl

/-- Counterexample to C1 as stated: a torus (nta = 4, xmax = 1, an
auxiliary-angle function realizing 1/2 at x = -1, 1e-12 at x = -3/4) on
which the construction converges in two iterations with every grid point
converged, yet the auxiliary angle recomputed from the final stored
position xgrid[0] (which received one extra clipped Newton update after
the residual was measured) has wrapped residual 1/2, far above 1e-12. -/
theorem C1_counterexample :
    allConverged pCex = true ∧
    tolGrid < |qwrap (pCex.f (xFinal pCex 0) 1 - thetaa pCex.nta 0)| := by
  refine ⟨pCex_allConverged, ?_⟩
  rw [pCex_xFinal_zero, thetaa_zero, sub_zero,
    show pCex.f (-1) 1 = 1 / 2 from by
      show fCex (-1) 1 = 1 / 2
      norm_num [fCex],
    qwrap_small _ (by norm_num) (by norm_num),
    abs_of_pos (by norm_num : (0 : ℚ) < 1 / 2)]
  norm_num [tolGrid]

theorem thetaa_eq (nta k : ℕ) (h : 2 ≤ nta) :
    thetaa nta k = 2 * npPi * k / nta := by
  have h0 : (nta : ℚ) ≠ 0 := Nat.cast_ne_zero.mpr (by omega)
  have h2 : (2 : ℚ) ≤ (nta : ℚ) := by exact_mod_cast h
  have h1 : (nta : ℚ) - 1 ≠ 0 := by
    intro hc
    have : (nta : ℚ) = 1 := by linarith
    linarith
  rw [thetaa]
  field_simp
  ring

/-- Claim C4, code-bug evaluation: an unconverged point of the pTriv torus
(xmax = 1, nta = 4) at x = -9/10 with wrapped residual dta = 1/2 and unit
angle derivative gets the Newton step -1/2, clipped to -1/4 (respecting the
xmax/nta cap); the updated position -23/20 falls below -xmax, and lines
123-124 then set it to +xmax = +1, not to -xmax = -1: line 124 assigns
xmaxgrid where the clamp to [-xmax, xmax] stated by the claim and the spec
requires -xmaxgrid. -/
theorem C4_clamp_bug :
    newtonUpdate pTriv (-(9 / 10)) (1 / 2) = 1 ∧
    (-(9 / 10) : ℚ) + -(1 / 4) < -pTriv.xmax ∧
    pTriv.xmax = 1 ∧ (1 : ℚ) ≠ -pTriv.xmax := by
  refine ⟨?_, by norm_num [pTriv], rfl, by norm_num [pTriv]⟩
  have habs : |(-(1 / 2) : ℚ)| = 1 / 2 := by
    rw [abs_of_neg (by norm_num : (-(1 / 2) : ℚ) < 0)]
    norm_num
  norm_num [newtonUpdate, pTriv, qsign, clampX, habs]

/-- Counterexample to C5 as stated: for nta = 8, column 1 has target angle
pi/4, which does not lie in (pi/2, 3*pi/2); yet column 1 belongs to the
initial unconv mask of line 111 and is solved directly by Newton iteration.
The directly-solved set is the complement of [pi/2, 3*pi/2]. -/
theorem C5_counterexample :
    newtonMask 8 1 = true ∧
    ¬ (npPi / 2 < thetaa 8 1 ∧ thetaa 8 1 < 3 * npPi / 2) := by
  refine ⟨rfl, ?_⟩
  rw [thetaa_eight_one]
  rintro ⟨h, -⟩
  have := npPi_bounds.1
  linarith

/-- Claim C5 (amended): exactly the columns whose target angle lies outside
the closed interval [pi/2, 3*pi/2] (equivalently k < nta/4 or k > 3*nta/4)
are solved directly by Newton iteration; the columns nta/4 < k <= nta/2 and
nta/2 < k <= 3*nta/4 are filled by mirroring already-computed columns (the
column at 3*pi/2 copying itself), the stored angles of the columns
nta/4 < k < 3*nta/4 are recomputed with vsign = -1, the directly-solved
columns keep their Newton positions and angles, and the column at pi/2
(k = nta/4) keeps its seeded position and +v angle. -/
theorem C5_solved_columns (p : TorusRowParams) (k : ℕ) (h4 : 4 ∣ p.nta)
    (h0 : 0 < p.nta) (hk : k < p.nta) :
    (newtonMask p.nta k = true ↔
      (thetaa p.nta k < npPi / 2 ∨ 3 * npPi / 2 < thetaa p.nta k)) ∧
    (p.nta / 4 + 1 ≤ k → k ≤ p.nta / 2 →
      xFinal p k = rawX p (2 * (p.nta / 4) - k)) ∧
    (p.nta / 2 + 1 ≤ k → k ≤ 3 * p.nta / 4 →
      xFinal p k = rawX p (p.nta + p.nta / 2 - k)) ∧
    (p.nta / 4 + 1 ≤ k → k ≤ 3 * p.nta / 4 - 1 →
      taFinal p k = p.f (xFinal p k) (-1)) ∧
    (newtonMask p.nta k = true →
      xFinal p k = rawX p k ∧ taFinal p k = rawTa p k) ∧
    (k = p.nta / 4 → xFinal p k = x0 p k ∧ taFinal p k = ta0 p k) := by
  obtain ⟨m, hm⟩ := h4
  have hm1 : 1 ≤ m := by omega
  have hpi : 0 < npPi := lt_trans (by norm_num) npPi_bounds.1
  have hnq : (0 : ℚ) < (p.nta : ℚ) := by exact_mod_cast h0
  have hth : thetaa p.nta k = 2 * npPi * k / p.nta := thetaa_eq _ _ (by omega)
  have hiff1 : thetaa p.nta k < npPi / 2 ↔ 4 * k < p.nta := by
    rw [hth, div_lt_div_iff₀ hnq (by norm_num : (0 : ℚ) < 2),
      show 2 * npPi * (k : ℚ) * 2 = npPi * (4 * (k : ℚ)) from by ring,
      mul_lt_mul_left hpi]
    constructor
    · intro h
      exact_mod_cast h
    · intro h
      exact_mod_cast h
  have hiff2 : 3 * npPi / 2 < thetaa p.nta k ↔ 3 * p.nta < 4 * k := by
    rw [hth, div_lt_div_iff₀ (by norm_num : (0 : ℚ) < 2) hnq,
      show 3 * npPi * (p.nta : ℚ) = npPi * (3 * (p.nta : ℚ)) from by ring,
      show 2 * npPi * (k : ℚ) * 2 = npPi * (4 * (k : ℚ)) from by ring,
      mul_lt_mul_left hpi]
    constructor
    · intro h
      exact_mod_cast h
    · intro h
      exact_mod_cast h
  refine ⟨?_, ?_, ?_, ?_, ?_, ?_⟩
  · rw [show (newtonMask p.nta k = true) ↔
        (k < p.nta / 4 ∨ 3 * p.nta / 4 < k) from by simp [newtonMask]]
    constructor
    · rintro (h | h)
      · exact Or.inl (hiff1.mpr (by omega))
      · exact Or.inr (hiff2.mpr (by omega))
    · rintro (h | h)
      · have := hiff1.mp h
        exact Or.inl (by omega)
      · have := hiff2.mp h
        exact Or.inr (by omega)
  · intro h1 h2
    rw [xFinal, if_pos ⟨h1, h2⟩]
  · intro h1 h2
    rw [xFinal, if_neg (by rintro ⟨-, hx⟩; omega), if_pos ⟨h1, h2⟩]
  · intro h1 h2
    rw [taFinal, if_pos ⟨h1, h2⟩]
  · intro hmk
    have hmk' : k < p.nta / 4 ∨ 3 * p.nta / 4 < k := by
      simpa [newtonMask] using hmk
    constructor
    · rw [xFinal, if_neg (by rintro ⟨hx, hy⟩; omega),
        if_neg (by rintro ⟨hx, hy⟩; omega)]
    · rw [taFinal, if_neg (by rintro ⟨hx, hy⟩; omega)]
  · intro hke
    have hmf : ¬ (newtonMask p.nta k = true) := by
      simp [newtonMask]
      omega
    constructor
    · rw [xFinal, if_neg (by rintro ⟨hx, hy⟩; omega),
        if_neg (by rintro ⟨hx, hy⟩; omega), rawX, if_neg hmf]
    · rw [taFinal, if_neg (by rintro ⟨hx, hy⟩; omega), rawTa, if_neg hmf]

/-- Witness for the amended C5 at the pTriv torus, column 3 (a
directly-solved column, target angle 3*pi/2 excluded). -/
theorem C5_witness :
    (4 ∣ pTriv.nta ∧ 0 < pTriv.nta ∧ 3 < pTriv.nta) ∧
    (newtonMask pTriv.nta 3 = true ↔
      (thetaa pTriv.nta 3 < npPi / 2 ∨ 3 * npPi / 2 < thetaa pTriv.nta 3)) := by
  refine ⟨⟨⟨1, rfl⟩, by decide, by decide⟩, ?_⟩
  exact (C5_solved_columns pTriv 3 ⟨1, rfl⟩ (by decide) (by decide)).1

/-- Counterexample to C6 as stated: on the pCex torus (nta = 4), column 2
has target angle pi = pi - thetaa[0], and the mirror fill of line 137 sets
xgrid[2] = xgrid[0] = -1 - the position is copied, not negated - so the
claimed reflection x(pi - theta) = -x(theta) fails: -1 is not -(-1). -/
theorem C6_counterexample :
    thetaa pCex.nta 2 = npPi - thetaa pCex.nta 0 ∧
    xFinal pCex 2 = xFinal pCex 0 ∧ xFinal pCex 0 = -1 ∧
    ¬ xFinal pCex 2 = -xFinal pCex 0 := by
  refine ⟨?_, ?_, pCex_xFinal_zero, ?_⟩
  · rw [show pCex.nta = 4 from rfl, thetaa_four_two, thetaa_zero]
    ring
  · rw [pCex_xFinal_two, pCex_xFinal_zero]
  · rw [pCex_xFinal_two, pCex_xFinal_zero]
    norm_num

/-- Claim C6 (amended): for every torus and every column k of the mirrored
ranges, the final stored position at column k equals the position (not its
negation) at the column whose target angle is pi - thetaa[k] modulo 2*pi:
xFinal k = xFinal (nta/2 - k) with thetaa[nta/2-k] = pi - thetaa[k] when
nta/4 < k <= nta/2, and xFinal k = xFinal (nta + nta/2 - k) with
thetaa[nta+nta/2-k] = 3*pi - thetaa[k] (congruent to pi - thetaa[k] modulo
2*pi) when nta/2 < k <= 3*nta/4.  The orbit reflection x -> -x appears only
through the negated velocity branch, not through the stored positions. -/
theorem C6_mirror_positions (p : TorusRowParams) (k : ℕ) (h4 : 4 ∣ p.nta) :
    (p.nta / 4 + 1 ≤ k → k ≤ p.nta / 2 →
      xFinal p k = xFinal p (p.nta / 2 - k) ∧
      thetaa p.nta (p.nta / 2 - k) = npPi - thetaa p.nta k) ∧
    (p.nta / 2 + 1 ≤ k → k ≤ 3 * p.nta / 4 →
      xFinal p k = xFinal p (p.nta + p.nta / 2 - k) ∧
      thetaa p.nta (p.nta + p.nta / 2 - k) = 3 * npPi - thetaa p.nta k) := by
  obtain ⟨m, hm⟩ := h4
  constructor
  · intro h1 h2
    have hm1 : 1 ≤ m := by omega
    have hn0 : (p.nta : ℚ) ≠ 0 := Nat.cast_ne_zero.mpr (by omega)
    constructor
    · rw [xFinal, if_pos ⟨h1, h2⟩,
        show 2 * (p.nta / 4) - k = p.nta / 2 - k from by omega]
      rw [xFinal, if_neg (by rintro ⟨hx, hy⟩; omega),
        if_neg (by rintro ⟨hx, hy⟩; omega)]
    · have e1 : ((p.nta / 2 : ℕ) : ℚ) = (p.nta : ℚ) / 2 := by
        have h2d : p.nta / 2 * 2 = p.nta := by omega
        have hc := congrArg (Nat.cast : ℕ → ℚ) h2d
        push_cast at hc
        linarith
      have hcast : ((p.nta / 2 - k : ℕ) : ℚ) = (p.nta : ℚ) / 2 - (k : ℚ) := by
        rw [Nat.cast_sub h2, e1]
      rw [thetaa_eq _ _ (by omega), thetaa_eq _ _ (by omega), hcast]
      field_simp
      ring
  · intro h1 h2
    have hm1 : 1 ≤ m := by omega
    have hn0 : (p.nta : ℚ) ≠ 0 := Nat.cast_ne_zero.mpr (by omega)
    constructor
    · rw [xFinal, if_neg (by rintro ⟨hx, hy⟩; omega), if_pos ⟨h1, h2⟩]
      rw [xFinal]
      split_ifs with hA hB
      · exfalso
        omega
      · rw [show p.nta + p.nta / 2 - (p.nta + p.nta / 2 - k) =
            p.nta + p.nta / 2 - k from by omega]
      · rfl
    · have hle : k ≤ p.nta + p.nta / 2 := by omega
      have e1 : ((p.nta / 2 : ℕ) : ℚ) = (p.nta : ℚ) / 2 := by
        have h2d : p.nta / 2 * 2 = p.nta := by omega
        have hc := congrArg (Nat.cast : ℕ → ℚ) h2d
        push_cast at hc
        linarith
      have hcast : ((p.nta + p.nta / 2 - k : ℕ) : ℚ) =
          (p.nta : ℚ) + (p.nta : ℚ) / 2 - (k : ℚ) := by
        rw [Nat.cast_sub hle]
        push_cast
        rw [e1]
      rw [thetaa_eq _ _ (by omega), thetaa_eq _ _ (by omega), hcast]
      field_simp
      ring

/-- Witness for the amended C6 at the pTriv torus, column 2 (mirrored from
column 0). -/
theorem C6_witness :
    (4 ∣ pTriv.nta ∧ pTriv.nta / 4 + 1 ≤ 2 ∧ 2 ≤ pTriv.nta / 2) ∧
    xFinal pTriv 2 = xFinal pTriv (pTriv.nta / 2 - 2) ∧
    thetaa pTriv.nta (pTriv.nta / 2 - 2) = npPi - thetaa pTriv.nta 2 := by
  refine ⟨⟨⟨1, rfl⟩, by decide, by decide⟩, ?_, ?_⟩
  · exact ((C6_mirror_positions pTriv 2 ⟨1, rfl⟩).1 (by decide) (by decide)).1
  · exact ((C6_mirror_positions pTriv 2 ⟨1, rfl⟩).1 (by decide) (by decide)).2
